import Mathlib

/-!
# home-file-server: a shallow embedding of `server.js`

The development models the pure and the state-passing parts of `server.js`:
the multer `filename` callback (name sanitising), the recovery of the original
name from a storage name, `categorizeFile`, the range branch of the download
handler, the listing handler (filter, search, sort) and the two delete handlers.

Conventions of the embedding.

* A JavaScript string is the list of its UTF-16 code units (`Str`); the regular
  expressions of the program carry no `u` flag, so they work unit by unit.
* JavaScript numbers that hold byte offsets, sizes and timestamps are integers;
  they are modelled by `Nat`/`Int`, exact for every value up to `2^53`. A stored
  file has at most `2^53` bytes, and `fs.createReadStream` refuses every option
  above `Number.MAX_SAFE_INTEGER`, as Node does. `NaN` is `none`.
* `toLowerCase` and `localeCompare` depend on the Unicode tables of the engine:
  the listing takes them as parameters; `categorizeFile`, which compares with
  ASCII tables only, uses the mapping written out in `lowerUnit`.
* `path` is the POSIX flavour of Node's module.
* An exception that leaves a handler is an explicit result (`threw`).
-/

namespace HomeFileServer

/-- A JavaScript string: the list of its UTF-16 code units. -/
abbrev Str := List Nat

/-- The code units of a literal of the program (all literals are ASCII). -/
def str (s : String) : Str := s.toList.map Char.toNat

/-! ## Name sanitising (`storage.filename`, lines 71-75) -/

/-- Membership in the class `[a-zA-Z0-9.-]` of the regular expression
`/[^a-zA-Z0-9.-]/g`. -/
def isSafeUnit (c : Nat) : Bool :=
  (97 ≤ c && c ≤ 122) || (65 ≤ c && c ≤ 90) || (48 ≤ c && c ≤ 57) || c == 46 || c == 45

/-- The replacement made for one code unit by `.replace(/[^a-zA-Z0-9.-]/g, '_')`. -/
def sanitizeUnit (c : Nat) : Nat := if isSafeUnit c then c else 95

/-- The value of `file.originalname.replace(/[^a-zA-Z0-9.-]/g, '_')`. -/
def sanitize (name : Str) : Str := name.map sanitizeUnit

/-- Decimal digits of a number, most significant first, with explicit fuel. -/
def decimalAux : Nat → Nat → Str
  | 0, _ => []
  | fuel + 1, n => if n < 10 then [48 + n] else decimalAux fuel (n / 10) ++ [48 + n % 10]

/-- The text a template literal produces for a non-negative integer,
as in `${timestamp}` or `${start}`. -/
def decimal (n : Nat) : Str := decimalAux (n + 1) n

/-- The name handed to `cb` by the `filename` callback:
the template `${timestamp}-${sanitizedName}`. -/
def storageName (timestamp : Nat) (originalname : Str) : Str :=
  decimal timestamp ++ 45 :: sanitize originalname

/-- The expression `filename.split('-').slice(1).join('-')` of the listing,
download and archive handlers. -/
def recoverOriginalName (filename : Str) : Str :=
  (str "-").intercalate ((filename.splitOn 45).drop 1)

/-- The test `^[A-Za-z0-9_.-]+$` on a whole string. -/
def matchesSafePattern (s : Str) : Bool :=
  !s.isEmpty && s.all (fun c => isSafeUnit c || c == 95)

/-! ## `String.prototype.toLowerCase` and `path.extname` -/

/-- Lower-case mapping of one code unit, as far as a comparison with the
extension tables can observe it. Basic Latin and Latin-1 are mapped as Unicode
does; of the code points above them the two whose mapping contains an ASCII
unit are listed (KELVIN SIGN U+212A gives `k`, U+0130 gives `i` followed by
U+0307) and every other unit is kept: Unicode maps each of those other code
points to code points outside ASCII, and the tables are ASCII. The listing,
where the search text can be any text, takes the method as a parameter instead. -/
def lowerUnit (c : Nat) : Str :=
  if 65 ≤ c ∧ c ≤ 90 then [c + 32]
  else if c = 0x212A then [107]
  else if c = 0x130 then [105, 0x307]
  else if 0xC0 ≤ c ∧ c ≤ 0xDE ∧ c ≠ 0xD7 then [c + 32]
  else [c]

/-- The value of `s.toLowerCase()` inside `categorizeFile`. -/
def toLowerCase (s : Str) : Str := s.flatMap lowerUnit

/-- The local variables of `posix.extname`. -/
structure ExtScan where
  startDot : Int
  startPart : Int
  endIdx : Int
  matchedSlash : Bool
  preDotState : Int
  deriving DecidableEq, Repr

/-- The initial values: `startDot = -1, startPart = 0, end = -1,
matchedSlash = true, preDotState = 0`. -/
def ExtScan.init : ExtScan := ⟨-1, 0, -1, true, 0⟩

/-- The loop `for (let i = path.length - 1; i >= 0; --i)` of `posix.extname`;
the first argument is `i + 1`. -/
def extnameLoop (path : Str) : Nat → ExtScan → ExtScan
  | 0, st => st
  | i + 1, st =>
    let code := path.getD i 0
    if code = 47 then
      if !st.matchedSlash then { st with startPart := (i : Int) + 1 }
      else extnameLoop path i st
    else
      let st1 :=
        if st.endIdx = -1 then { st with matchedSlash := false, endIdx := (i : Int) + 1 } else st
      let st2 :=
        if code = 46 then
          if st1.startDot = -1 then { st1 with startDot := (i : Int) }
          else if st1.preDotState ≠ 1 then { st1 with preDotState := 1 }
          else st1
        else if st1.startDot ≠ -1 then { st1 with preDotState := -1 }
        else st1
      extnameLoop path i st2

/-- The value of `path.slice(a, b)` for indices in range. -/
def slice (s : Str) (a b : Int) : Str := (s.take b.toNat).drop a.toNat

/-- Node's `path.extname` (POSIX). -/
def extname (path : Str) : Str :=
  let st := extnameLoop path path.length ExtScan.init
  if st.startDot = -1 ∨ st.endIdx = -1 ∨ st.preDotState = 0 ∨
      (st.preDotState = 1 ∧ st.startDot = st.endIdx - 1 ∧ st.startDot = st.startPart + 1) then []
  else slice path st.startDot st.endIdx

/-! ## `categorizeFile` (lines 414-432) -/

/-- The strings `categorizeFile` can return. -/
inductive Category
  | images
  | documents
  | videos
  | audio
  | archives
  | other
  deriving DecidableEq, Repr

/-- The string a category stands for. -/
def Category.toStr : Category → Str
  | .images => str "images"
  | .documents => str "documents"
  | .videos => str "videos"
  | .audio => str "audio"
  | .archives => str "archives"
  | .other => str "other"

/-- The object literal `categories`, in insertion order. -/
def categories : List (Category × List Str) :=
  [ (.images, [str ".jpg", str ".jpeg", str ".png", str ".gif", str ".bmp", str ".webp",
      str ".svg", str ".ico"]),
    (.documents, [str ".pdf", str ".doc", str ".docx", str ".txt", str ".rtf", str ".odt",
      str ".xls", str ".xlsx", str ".ppt", str ".pptx"]),
    (.videos, [str ".mp4", str ".avi", str ".mkv", str ".mov", str ".wmv", str ".flv",
      str ".webm", str ".m4v"]),
    (.audio, [str ".mp3", str ".wav", str ".flac", str ".aac", str ".ogg", str ".wma",
      str ".m4a"]),
    (.archives, [str ".zip", str ".rar", str ".7z", str ".tar", str ".gz", str ".bz2",
      str ".xz"]) ]

/-- The loop `for (const [category, extensions] of Object.entries(categories))`
followed by `return 'other'`. -/
def categorizeLoop (ext : Str) : List (Category × List Str) → Category
  | [] => .other
  | (category, extensions) :: rest =>
    if extensions.contains ext then category else categorizeLoop ext rest

/-- The function `categorizeFile`. -/
def categorizeFile (filename : Str) : Category :=
  categorizeLoop (toLowerCase (extname filename)) categories

/-- The code units that occur in the extension tables: `a-z`, `0-9` and the dot. -/
def isTableUnit (u : Nat) : Bool := (97 ≤ u && u ≤ 122) || (48 ≤ u && u ≤ 57) || u == 46

/-! ### The category table as the specification words it -/

/-- The extension lists of the specification, written without the dot. -/
def specTable : List (Category × List Str) :=
  [ (.documents, [str "pdf", str "doc", str "docx", str "txt", str "rtf", str "odt", str "xls",
      str "xlsx", str "ppt", str "pptx"]),
    (.images, [str "jpg", str "jpeg", str "png", str "gif", str "bmp", str "webp", str "svg",
      str "ico"]),
    (.videos, [str "mp4", str "avi", str "mkv", str "mov", str "wmv", str "flv", str "webm",
      str "m4v"]),
    (.audio, [str "mp3", str "wav", str "flac", str "aac", str "ogg", str "wma", str "m4a"]),
    (.archives, [str "zip", str "rar", str "7z", str "tar", str "gz", str "bz2", str "xz"]) ]

/-- The text after the last dot of a name; `none` when the name has no dot. -/
def specExtension : Str → Option Str
  | [] => none
  | c :: cs =>
    match specExtension cs with
    | some e => some e
    | none => if c = 46 then some cs else none

/-- The categories whose list holds the lower-cased extension. -/
def specCategoriesOf (ext : Str) : List Category :=
  (specTable.filter (fun row => row.2.contains (toLowerCase ext))).map Prod.fst

/-- The category the specification assigns: the one listing the lower-cased
extension, `other` when no list has it or the name has no extension. -/
def specCategory (name : Str) : Category :=
  match specExtension name with
  | none => .other
  | some ext => (specCategoriesOf ext).headD .other

/-- The position of the last dot of a name, when it has one. -/
def lastDot : Str → Option Nat
  | [] => none
  | c :: cs =>
    match lastDot cs with
    | some k => some (k + 1)
    | none => if c = 46 then some 0 else none

/-! ## The download handler (lines 245-286) -/

/-- The code units `parseInt` skips at the start: WhiteSpace and LineTerminator. -/
def isWhiteSpace (c : Nat) : Bool :=
  c == 9 || c == 10 || c == 11 || c == 12 || c == 13 || c == 32 || c == 0xA0 || c == 0x1680 ||
  (0x2000 ≤ c && c ≤ 0x200A) || c == 0x2028 || c == 0x2029 || c == 0x202F || c == 0x205F ||
  c == 0x3000 || c == 0xFEFF

/-- A decimal digit. -/
def isDigit (c : Nat) : Bool := 48 ≤ c && c ≤ 57

/-- The integer a run of decimal digits denotes. -/
def digitsValue (z : Str) : Nat := z.foldl (fun acc d => acc * 10 + (d - 48)) 0

/-- The sign step of `parseInt`: a leading `-` or `+` is read and removed. -/
def readSign : Str → Int × Str
  | 45 :: r => (-1, r)
  | 43 :: r => (1, r)
  | s => (1, s)

/-- The value of `parseInt(s, 10)`: leading white space is skipped, one sign is
read, then the longest run of digits; `none` is `NaN`. -/
def parseInt (s : Str) : Option Int :=
  let signed := readSign (s.dropWhile isWhiteSpace)
  let z := signed.2.takeWhile isDigit
  if z.isEmpty then none else some (signed.1 * (digitsValue z : Int))

/-- The value of `s.replace(/bytes=/, "")`: the first occurrence of the
pattern, wherever it stands, is removed. -/
def replaceFirst (pat : Str) : Str → Str
  | [] => []
  | c :: cs => if pat.isPrefixOf (c :: cs) then (c :: cs).drop pat.length else c :: replaceFirst pat cs

/-- What the download handler does with the response. -/
inductive DownloadResponse
  /-- Status 404 with the body `{ error: 'File not found' }`. -/
  | notFound
  /-- The call `res.writeHead(206, ...)` followed by the piped stream. -/
  | partialContent (contentRange : Str) (contentLength : Int) (contentDisposition : Str)
      (body : List Nat)
  /-- The call `res.download(filePath, originalName)`: the whole file. -/
  | download (name : Str) (body : List Nat)
  /-- The constructor behind `fs.createReadStream` threw before any header was written. -/
  | threw
  deriving DecidableEq, Repr

/-- The constant `Number.MAX_SAFE_INTEGER`, `2^53 - 1`: the upper bound that
`validateInteger` puts on the options `start` and `end`. -/
def maxSafeInteger : Nat := 9007199254740991

/-- A stored file: its bytes. `fs.statSync` reports the size as a number, which
is exact up to `2^53`; a stored file stays within that size. -/
structure StoredFile where
  bytes : List Nat
  size_safe : bytes.length ≤ maxSafeInteger + 1

/-- The call `fs.createReadStream(filePath, { start, end })`: the constructor of
`ReadStream` validates that both options are integers (`NaN` is not) between
`0` and `Number.MAX_SAFE_INTEGER` with `start <= end`, and throws otherwise
(`none`); the stream yields the bytes from `start` up to `end` inclusive and
stops at the end of the file. A decimal text of `2^53` or more is read by
`parseInt` as a double of at least `2^53`, so it is refused like its exact value. -/
def createReadStream (content : List Nat) (start stop : Option Int) : Option (List Nat) :=
  match start, stop with
  | some s, some e =>
    if 0 ≤ s ∧ s ≤ (maxSafeInteger : Int) ∧ 0 ≤ e ∧ e ≤ (maxSafeInteger : Int) ∧ s ≤ e then
      some ((content.drop s.toNat).take (e - s + 1).toNat)
    else none
  | _, _ => none

/-- The handler of `GET /download/:filename` behind `requireAuth`. `stored` is the
file `uploads/<filename>` when `fs.existsSync` finds it, `range` the value of
`req.headers.range`. -/
def downloadHandler (filename : Str) (stored : Option StoredFile) (range : Option Str) :
    DownloadResponse :=
  match stored with
  | none => .notFound
  | some file =>
    let content := file.bytes
    let size : Int := content.length
    let originalName := recoverOriginalName filename
    match range with
    | none => .download originalName content
    | some header =>
      if header.isEmpty then .download originalName content
      else
        let parts := (replaceFirst (str "bytes=") header).splitOn 45
        let start := parseInt (parts.getD 0 [])
        let stop : Option Int :=
          match parts.get? 1 with
          | some p => if p.isEmpty then some (size - 1) else parseInt p
          | none => some (size - 1)
        match createReadStream content start stop, start, stop with
        | some body, some s, some e =>
          .partialContent
            (str "bytes " ++ decimal s.toNat ++ str "-" ++ decimal e.toNat ++ str "/" ++
              decimal content.length)
            (e - s + 1)
            (str "attachment; filename=" ++ 34 :: originalName ++ [34])
            body
        | _, _, _ => .threw

/-! ## The delete handlers (lines 313-368) -/

/-- What a path of the file system names. -/
inductive EntryKind
  | file
  | directory
  deriving DecidableEq, Repr

/-- A file system: what each absolute path, given by its components, names. -/
abbrev FileSystem := List Str → Option EntryKind

/-- A normalised absolute path: its components and whether it ends in `/`. -/
structure Path where
  segments : List Str
  trailingSlash : Bool
  deriving DecidableEq, Repr

/-- The component walk of `posix.normalize` on an absolute path: empty and `.`
components are dropped, `..` removes the component before it (none at the root). -/
def normalizeSegments : List Str → List Str → List Str
  | acc, [] => acc.reverse
  | acc, seg :: rest =>
    if seg = [] ∨ seg = str "." then normalizeSegments acc rest
    else if seg = str ".." then normalizeSegments (acc.drop 1) rest
    else normalizeSegments (seg :: acc) rest

/-- The call `path.join(__dirname, ...args)`: the non-empty arguments are joined
with `/` and the result is normalised. `dirname` holds the components of
`__dirname`. -/
def pathJoin (dirname : List Str) (args : List Str) : Path :=
  let used := args.filter (fun a => !a.isEmpty)
  { segments := normalizeSegments [] (dirname ++ (used.map (fun a => a.splitOn 47)).flatten)
    trailingSlash := (used.getLast?.bind List.getLast?) == some 47 }

/-- The call `fs.existsSync`: a path ending in `/` does not resolve to a file. -/
def existsSync (fs : FileSystem) (p : Path) : Bool :=
  match fs p.segments with
  | some .file => !p.trailingSlash
  | some .directory => true
  | none => false

/-- The call `fs.unlinkSync`: removes a file; throws (`none`) on a directory and
on a path that names nothing. -/
def unlinkSync (fs : FileSystem) (p : Path) : Option FileSystem :=
  match fs p.segments with
  | some .file =>
    if p.trailingSlash then none
    else some (fun q => if q = p.segments then none else fs q)
  | _ => none

/-- The `error` field of an entry of `results`. -/
inductive DeleteError
  /-- The text `'File not found'`. -/
  | fileNotFound
  /-- The `error.message` of a caught exception. -/
  | caught
  deriving DecidableEq, Repr

/-- An entry of `results`. -/
structure DeleteResult where
  filename : Str
  success : Bool
  error : Option DeleteError
  deriving DecidableEq, Repr

/-- The path `filePath` of both delete handlers. -/
def filePathOf (dirname : List Str) (filename : Str) : Path :=
  pathJoin dirname [str "uploads", filename]

/-- The path `thumbPath` of both delete handlers. -/
def thumbPathOf (dirname : List Str) (filename : Str) : Path :=
  pathJoin dirname [str "uploads", str "thumbnails", str "thumb_" ++ filename ++ str ".jpg"]

/-- The body of the callback of `files.forEach` in the bulk delete handler. -/
def deleteBulkStep (dirname : List Str) (fs : FileSystem) (filename : Str) :
    FileSystem × DeleteResult :=
  let filePath := filePathOf dirname filename
  let thumbPath := thumbPathOf dirname filename
  if existsSync fs filePath then
    match unlinkSync fs filePath with
    | none => (fs, ⟨filename, false, some .caught⟩)
    | some fs1 =>
      if existsSync fs1 thumbPath then
        match unlinkSync fs1 thumbPath with
        | none => (fs1, ⟨filename, false, some .caught⟩)
        | some fs2 => (fs2, ⟨filename, true, none⟩)
      else (fs1, ⟨filename, true, none⟩)
  else (fs, ⟨filename, false, some .fileNotFound⟩)

/-- The handler of `POST /delete-bulk` for a body whose `files` is an array of
strings: the file system afterwards and the array `results`. -/
def deleteBulk (dirname : List Str) (fs : FileSystem) (files : List Str) :
    FileSystem × List DeleteResult :=
  files.foldl
    (fun acc filename =>
      let r := deleteBulkStep dirname acc.1 filename
      (r.1, acc.2 ++ [r.2]))
    (fs, [])

/-- The bulk delete loop written by recursion on the list of names; used to
reason about `deleteBulk`, with which it agrees. -/
def bulkFrom (dirname : List Str) : FileSystem → List Str → FileSystem × List DeleteResult
  | fs, [] => (fs, [])
  | fs, filename :: rest =>
    let r := deleteBulkStep dirname fs filename
    let tail := bulkFrom dirname r.1 rest
    (tail.1, r.2 :: tail.2)

/-- The responses of `DELETE /delete/:filename`. -/
inductive DeleteResponse
  /-- Status 404, `{ error: 'File not found' }`. -/
  | notFound
  /-- Status 200, `{ message: 'File deleted successfully' }`. -/
  | deleted
  /-- Status 500, `{ error: 'Failed to delete file' }`. -/
  | failed
  deriving DecidableEq, Repr

/-- The handler of `DELETE /delete/:filename`. -/
def deleteOne (dirname : List Str) (fs : FileSystem) (filename : Str) :
    FileSystem × DeleteResponse :=
  let filePath := filePathOf dirname filename
  let thumbPath := thumbPathOf dirname filename
  if !existsSync fs filePath then (fs, .notFound)
  else
    match unlinkSync fs filePath with
    | none => (fs, .failed)
    | some fs1 =>
      if existsSync fs1 thumbPath then
        match unlinkSync fs1 thumbPath with
        | none => (fs1, .failed)
        | some fs2 => (fs2, .deleted)
      else (fs1, .deleted)

/-! ## The listing handler (lines 184-242) -/

/-- A name returned by `fs.readdir('uploads')` with what `fs.statSync` reports
for it: the size and the modification time in milliseconds. -/
structure DirEntry where
  name : Str
  size : Nat
  mtime : Nat
  deriving DecidableEq, Repr

/-- A record of the listing. `uploadTime` is the instant `stats.mtime.toISOString()`
denotes, in milliseconds; the field `expiresAt` is the constant `null`. -/
structure FileRecord where
  filename : Str
  originalName : Str
  size : Nat
  uploadTime : Nat
  category : Category
  hasThumb : Bool
  extension : Str
  deriving DecidableEq, Repr

/-- The test of the first `filter`: not hidden, not `thumbnails`, not `temp`. -/
def isListed (filename : Str) : Bool :=
  !(str ".").isPrefixOf filename && filename != str "thumbnails" && filename != str "temp"

/-- The callback of `map`. `lowerCase` stands for `String.prototype.toLowerCase`
with the Unicode case tables of the engine, `thumbs` tells which names exist in
`uploads/thumbnails`. -/
def toRecord (lowerCase : Str → Str) (thumbs : Str → Bool) (e : DirEntry) : FileRecord :=
  let originalName := recoverOriginalName e.name
  { filename := e.name
    originalName := originalName
    size := e.size
    uploadTime := e.mtime
    category := categorizeFile originalName
    hasThumb := thumbs (str "thumb_" ++ e.name ++ str ".jpg")
    extension := lowerCase (extname originalName) }

/-- The value of `s.includes(t)`. -/
def includes (s t : Str) : Bool :=
  match s with
  | [] => t.isEmpty
  | c :: cs => t.isPrefixOf (c :: cs) || includes cs t

/-- The call `fileList.sort(cmp)` for a comparator that places `a` first when
`before a b`: a stable sort. -/
def sortBy (before : FileRecord → FileRecord → Bool) (l : List FileRecord) : List FileRecord :=
  l.insertionSort (fun a b => before a b = true)

/-- The handler of `GET /files`. `lowerCase` and `localeCompare` stand for the
string methods of those names, which depend on the Unicode tables of the
engine; `search`, `category` and `sort` are the query parameters. -/
def listFiles (lowerCase : Str → Str) (localeCompare : Str → Str → Int) (thumbs : Str → Bool)
    (files : List DirEntry) (search category sort : Option Str) : List FileRecord :=
  let fileList := (files.filter (fun e => isListed e.name)).map (toRecord lowerCase thumbs)
  let fileList :=
    match search with
    | some s =>
      if s.isEmpty then fileList
      else
        let searchLower := lowerCase s
        fileList.filter (fun file => includes (lowerCase file.originalName) searchLower)
    | none => fileList
  let fileList :=
    match category with
    | some c =>
      if !c.isEmpty && c != str "all" then fileList.filter (fun file => file.category.toStr == c)
      else fileList
    | none => fileList
  match sort with
  | some s =>
    if s.isEmpty then fileList
    else if s = str "name" then
      sortBy (fun a b => decide (localeCompare a.originalName b.originalName ≤ 0)) fileList
    else if s = str "size" then sortBy (fun a b => decide (b.size ≤ a.size)) fileList
    else sortBy (fun a b => decide (b.uploadTime ≤ a.uploadTime)) fileList
  | none => fileList

/-! ## Sample data -/

/-- The directory the samples take for `__dirname`: `/srv/app`. -/
def appDir : List Str := [str "srv", str "app"]

/-- A sample file system: the program file `/srv/app/server.js`, the directories
created at start-up and one upload `A` with its thumbnail. -/
def sampleFs : FileSystem := fun p =>
  if p = appDir ++ [str "server.js"] then some .file
  else if p = appDir ++ [str "uploads"] then some .directory
  else if p = appDir ++ [str "uploads", str "thumbnails"] then some .directory
  else if p = appDir ++ [str "uploads", str "temp"] then some .directory
  else if p = appDir ++ [str "uploads", str "A"] then some .file
  else if p = appDir ++ [str "uploads", str "thumbnails", str "thumb_A.jpg"] then some .file
  else none

/-- A sample file system in which a directory stands where the thumbnail of
the upload `A` would be. -/
def blockedThumbFs : FileSystem := fun p =>
  if p = appDir ++ [str "uploads"] then some .directory
  else if p = appDir ++ [str "uploads", str "thumbnails"] then some .directory
  else if p = appDir ++ [str "uploads", str "A"] then some .file
  else if p = appDir ++ [str "uploads", str "thumbnails", str "thumb_A.jpg"] then some .directory
  else none

/-- A sample stored file of ten bytes. -/
def tenBytes : StoredFile := ⟨[1, 2, 3, 4, 5, 6, 7, 8, 9, 10], by decide⟩

/-- A sample directory content: three uploads. -/
def sampleDir : List DirEntry :=
  [⟨str "1-report.txt", 5, 10⟩, ⟨str "2-notes.txt", 9, 20⟩, ⟨str "3-Report-2.pdf", 7, 30⟩]

/-! # Theorems

## The storage name and its sanitised part -/

theorem str_dash : str "-" = [45] := rfl

theorem sanitizeUnit_idem (c : Nat) : sanitizeUnit (sanitizeUnit c) = sanitizeUnit c := by
  unfold sanitizeUnit
  by_cases h : isSafeUnit c = true
  · simp [h]
  · simp [h]

theorem sanitize_idem (s : Str) : sanitize (sanitize s) = sanitize s := by
  simp [sanitize, List.map_map, Function.comp_def, sanitizeUnit_idem]

theorem decimalAux_digits (fuel n : Nat) : ∀ c ∈ decimalAux fuel n, 48 ≤ c ∧ c ≤ 57 := by
  induction fuel generalizing n with
  | zero => simp [decimalAux]
  | succ f ih =>
    intro c hc
    unfold decimalAux at hc
    split at hc
    · simp at hc; omega
    · rcases List.mem_append.mp hc with h | h
      · exact ih _ c h
      · simp at h; omega

theorem decimal_digits (n : Nat) : ∀ c ∈ decimal n, 48 ≤ c ∧ c ≤ 57 :=
  decimalAux_digits _ _

theorem decimal_no_dash (n : Nat) : ∀ c ∈ decimal n, ¬ ((c == 45) = true) := by
  intro c hc
  have := decimal_digits n c hc
  simp; omega

theorem decimal_ne_nil (n : Nat) : decimal n ≠ [] := by
  unfold decimal decimalAux
  split <;> simp

theorem splitOn_dash_append (xs ys : Str) (h : ∀ c ∈ xs, ¬ ((c == 45) = true)) :
    (xs ++ 45 :: ys).splitOn 45 = xs :: ys.splitOn 45 := by
  simp only [List.splitOn]
  exact List.splitOnP_first (· == 45) xs h 45 (by simp) ys

theorem recover_storageName (t : Nat) (n : Str) :
    recoverOriginalName (storageName t n) = sanitize n := by
  unfold recoverOriginalName storageName
  rw [splitOn_dash_append _ _ (decimal_no_dash t), str_dash]
  simp only [List.drop_succ_cons, List.drop_zero]
  exact @List.intercalate_splitOn _ (sanitize n) 45 _

/-- C3: the original name recovered from a storage name built by the filename
callback is the sanitised client name, whatever dashes it contains, and
rebuilding the storage name from the same timestamp and the re-sanitised
recovered name gives the storage name back. -/
theorem C3_originalName_roundtrip (t : Nat) (n : Str) :
    recoverOriginalName (storageName t n) = sanitize n ∧
    storageName t (recoverOriginalName (storageName t n)) = storageName t n := by
  refine ⟨recover_storageName t n, ?_⟩
  rw [recover_storageName]
  simp [storageName, sanitize_idem]

/-- C4: the sanitised form of a non-empty name has the length of the name,
matches the pattern of safe names, keeps each unit of the class
A-Z, a-z, 0-9, dot, dash where it stands and has an underscore everywhere else. -/
theorem C4_sanitize_shape (name : Str) (hne : name ≠ []) :
    (sanitize name).length = name.length ∧
    matchesSafePattern (sanitize name) = true ∧
    (∀ c ∈ sanitize name, (97 ≤ c ∧ c ≤ 122) ∨ (65 ≤ c ∧ c ≤ 90) ∨ (48 ≤ c ∧ c ≤ 57) ∨
      c = 95 ∨ c = 46 ∨ c = 45) ∧
    ∀ (i : Nat) (c : Nat), name[i]? = some c →
      (isSafeUnit c = true → (sanitize name)[i]? = some c) ∧
      (isSafeUnit c = false → (sanitize name)[i]? = some 95) := by
  have hall : ∀ c ∈ sanitize name, isSafeUnit c = true ∨ c = 95 := by
    intro c hc
    simp only [sanitize, List.mem_map] at hc
    obtain ⟨a, _, rfl⟩ := hc
    unfold sanitizeUnit
    by_cases h : isSafeUnit a = true <;> simp [h]
  refine ⟨by simp [sanitize], ?_, ?_, ?_⟩
  · simp only [matchesSafePattern, Bool.and_eq_true, Bool.not_eq_true', List.all_eq_true,
      Bool.or_eq_true, beq_iff_eq]
    refine ⟨?_, hall⟩
    cases name with
    | nil => exact absurd rfl hne
    | cons a l => simp [sanitize]
  · intro c hc
    rcases hall c hc with h | h
    · simp [isSafeUnit] at h
      omega
    · omega
  · intro i c hc
    constructor <;> intro h <;> simp [sanitize, hc, sanitizeUnit, h]

/-- Witness of C4 on the name "my file.txt". -/
theorem C4_sanitize_shape_witness :
    str "my file.txt" ≠ [] ∧
    (sanitize (str "my file.txt")).length = (str "my file.txt").length ∧
    matchesSafePattern (sanitize (str "my file.txt")) = true ∧
    sanitize (str "my file.txt") = str "my_file.txt" :=
  ⟨by decide, (C4_sanitize_shape (str "my file.txt") (by decide)).1,
   (C4_sanitize_shape (str "my file.txt") (by decide)).2.1, by decide⟩

/-! ## Reading decimal numbers back -/

theorem str_bytes : str "bytes=" = [98, 121, 116, 101, 115, 61] := rfl

theorem replaceFirst_bytes (rest : Str) :
    replaceFirst (str "bytes=") (str "bytes=" ++ rest) = rest := by
  rw [str_bytes]
  simp [replaceFirst, List.isPrefixOf]

theorem splitOn_dash_single (xs : Str) (h : ∀ c ∈ xs, ¬ ((c == 45) = true)) :
    xs.splitOn 45 = [xs] := by
  simp only [List.splitOn]
  exact List.splitOnP_eq_single (· == 45) xs h

theorem digitsValue_append (a : Str) (d : Nat) :
    digitsValue (a ++ [d]) = digitsValue a * 10 + (d - 48) := by
  simp [digitsValue, List.foldl_append]

theorem digitsValue_decimalAux (fuel n : Nat) (h : n < fuel) :
    digitsValue (decimalAux fuel n) = n := by
  induction fuel generalizing n with
  | zero => omega
  | succ f ih =>
    unfold decimalAux
    split
    · simp [digitsValue]
    · rw [digitsValue_append, ih (n / 10) (by omega)]
      omega

theorem digitsValue_decimal (n : Nat) : digitsValue (decimal n) = n :=
  digitsValue_decimalAux _ _ (by omega)

theorem digit_not_whiteSpace (c : Nat) (h : 48 ≤ c ∧ c ≤ 57) : isWhiteSpace c = false := by
  simp [isWhiteSpace]
  omega

theorem parseInt_decimal (n : Nat) : parseInt (decimal n) = some (n : Int) := by
  have hd := decimal_digits n
  have hv := digitsValue_decimal n
  cases hl : decimal n with
  | nil => exact absurd hl (decimal_ne_nil n)
  | cons c cs =>
    rw [hl] at hd hv
    have hc := hd c (by simp)
    have htw : List.takeWhile isDigit (c :: cs) = c :: cs := by
      rw [List.takeWhile_eq_self_iff]
      intro x hx
      have := hd x hx
      simp [isDigit]; omega
    have hs : readSign (c :: cs) = (1, c :: cs) := by
      unfold readSign
      split
      · rename_i heq; simp at heq; omega
      · rename_i heq; simp at heq; omega
      · rfl
    unfold parseInt
    simp [List.dropWhile, digit_not_whiteSpace c hc, hs, htw, hv]

/-! ## The range branch of the download handler -/

theorem bytes_header_nonempty (rest : Str) : (str "bytes=" ++ rest).isEmpty = false := by
  rw [str_bytes]; rfl

theorem stream_body (content : List Nat) (s e : Nat) (h1 : s ≤ e) (h2 : e < content.length) :
    ((content.drop s).take (e - s + 1)).length = e - s + 1 ∧
    ∀ i, i < e - s + 1 → ((content.drop s).take (e - s + 1))[i]? = content[s + i]? := by
  constructor
  · simp; omega
  · intro i hi
    rw [List.getElem?_take_of_lt hi, List.getElem?_drop]

theorem createReadStream_valid (content : List Nat) (s e : Nat) (h : s ≤ e)
    (hmax : e ≤ maxSafeInteger) :
    createReadStream content (some (s : Int)) (some (e : Int)) =
      some ((content.drop s).take (e - s + 1)) := by
  have hcast : ((e : Int) - s + 1).toNat = e - s + 1 := by omega
  have hcond : 0 ≤ (s : Int) ∧ (s : Int) ≤ (maxSafeInteger : Int) ∧ 0 ≤ (e : Int) ∧
      (e : Int) ≤ (maxSafeInteger : Int) ∧ (s : Int) ≤ (e : Int) := by
    refine ⟨by omega, ?_, by omega, ?_, by omega⟩
    · exact_mod_cast Nat.le_trans h hmax
    · exact_mod_cast hmax
  unfold createReadStream
  simp only [hcond, and_self, if_true, hcast, Int.toNat_ofNat]

theorem createReadStream_invalid (content : List Nat) (s e : Int)
    (h : e < s ∨ (maxSafeInteger : Int) < e ∨ (maxSafeInteger : Int) < s) :
    createReadStream content (some s) (some e) = none := by
  unfold createReadStream
  have hcond : ¬ (0 ≤ s ∧ s ≤ (maxSafeInteger : Int) ∧ 0 ≤ e ∧ e ≤ (maxSafeInteger : Int) ∧
      s ≤ e) := by
    intro hc
    omega
  simp only [hcond, if_false]

theorem download_closed_range (filename : Str) (file : StoredFile) (s e : Nat) (h : s ≤ e)
    (hmax : e ≤ maxSafeInteger) :
    downloadHandler filename (some file)
        (some (str "bytes=" ++ decimal s ++ 45 :: decimal e)) =
      .partialContent
        (str "bytes " ++ decimal s ++ str "-" ++ decimal e ++ str "/" ++
          decimal file.bytes.length)
        ((e : Int) - s + 1)
        (str "attachment; filename=" ++ 34 :: recoverOriginalName filename ++ [34])
        ((file.bytes.drop s).take (e - s + 1)) := by
  have hsplit : (decimal s ++ 45 :: decimal e).splitOn 45 = [decimal s, decimal e] := by
    rw [splitOn_dash_append _ _ (decimal_no_dash s), splitOn_dash_single _ (decimal_no_dash e)]
  have he : (decimal e).isEmpty = false := by
    cases hd : decimal e with
    | nil => exact absurd hd (decimal_ne_nil e)
    | cons _ _ => rfl
  unfold downloadHandler
  simp only [List.append_assoc, bytes_header_nonempty, replaceFirst_bytes, hsplit]
  simp [he, parseInt_decimal, createReadStream_valid _ s e h hmax]

theorem download_open_range (filename : Str) (file : StoredFile) (s : Nat)
    (h : s < file.bytes.length) :
    downloadHandler filename (some file) (some (str "bytes=" ++ decimal s ++ [45])) =
      .partialContent
        (str "bytes " ++ decimal s ++ str "-" ++ decimal (file.bytes.length - 1) ++ str "/" ++
          decimal file.bytes.length)
        (((file.bytes.length - 1 : Nat) : Int) - s + 1)
        (str "attachment; filename=" ++ 34 :: recoverOriginalName filename ++ [34])
        ((file.bytes.drop s).take (file.bytes.length - 1 - s + 1)) := by
  have hsplit : (decimal s ++ [45]).splitOn 45 = [decimal s, []] := by
    rw [splitOn_dash_append _ _ (decimal_no_dash s)]
    rfl
  have hsafe := file.size_safe
  have hc3 : (file.bytes.length : Int) - 1 = ((file.bytes.length - 1 : Nat) : Int) := by omega
  have hrs := createReadStream_valid file.bytes s (file.bytes.length - 1) (by omega) (by omega)
  unfold downloadHandler
  simp only [List.append_assoc, bytes_header_nonempty, replaceFirst_bytes, hsplit]
  simp [parseInt_decimal, hc3, hrs]

/-- C1: for a stored file of size S and a Range header naming start and end with
start <= end < S, written with both bounds or with the end left out (then S-1),
the download handler answers 206 with Content-Length end-start+1, Content-Range
bytes start-end/S, and the body is the end-start+1 bytes of the file at
positions start to end. -/
theorem C1_range_served (filename : Str) (file : StoredFile) (start stop : Nat)
    (h1 : start ≤ stop) (h2 : stop < file.bytes.length) :
    downloadHandler filename (some file)
        (some (str "bytes=" ++ decimal start ++ 45 :: decimal stop)) =
      .partialContent
        (str "bytes " ++ decimal start ++ str "-" ++ decimal stop ++ str "/" ++
          decimal file.bytes.length)
        ((stop : Int) - start + 1)
        (str "attachment; filename=" ++ 34 :: recoverOriginalName filename ++ [34])
        ((file.bytes.drop start).take (stop - start + 1)) ∧
    downloadHandler filename (some file) (some (str "bytes=" ++ decimal start ++ [45])) =
      .partialContent
        (str "bytes " ++ decimal start ++ str "-" ++ decimal (file.bytes.length - 1) ++
          str "/" ++ decimal file.bytes.length)
        (((file.bytes.length - 1 : Nat) : Int) - start + 1)
        (str "attachment; filename=" ++ 34 :: recoverOriginalName filename ++ [34])
        ((file.bytes.drop start).take (file.bytes.length - 1 - start + 1)) ∧
    (∀ e, start ≤ e → e < file.bytes.length →
      ((file.bytes.drop start).take (e - start + 1)).length = e - start + 1 ∧
      ∀ i, i < e - start + 1 →
        ((file.bytes.drop start).take (e - start + 1))[i]? = file.bytes[start + i]?) :=
  ⟨download_closed_range filename file start stop h1 (by have := file.size_safe; omega),
   download_open_range filename file start (by omega),
   fun e he1 he2 => stream_body file.bytes start e he1 he2⟩

theorem createReadStream_nan (content : List Nat) (stop : Option Int) :
    createReadStream content none stop = none := by
  unfold createReadStream
  rfl

theorem download_refused_range (filename : Str) (file : StoredFile) (s e : Nat)
    (h : e < s ∨ maxSafeInteger < e) :
    downloadHandler filename (some file)
        (some (str "bytes=" ++ decimal s ++ 45 :: decimal e)) = .threw := by
  have hsplit : (decimal s ++ 45 :: decimal e).splitOn 45 = [decimal s, decimal e] := by
    rw [splitOn_dash_append _ _ (decimal_no_dash s), splitOn_dash_single _ (decimal_no_dash e)]
  have he : (decimal e).isEmpty = false := by
    cases hd : decimal e with
    | nil => exact absurd hd (decimal_ne_nil e)
    | cons _ _ => rfl
  have hbad : (e : Int) < (s : Int) ∨ (maxSafeInteger : Int) < (e : Int) ∨
      (maxSafeInteger : Int) < (s : Int) := by
    rcases h with h | h
    · exact Or.inl (by exact_mod_cast h)
    · exact Or.inr (Or.inl (by exact_mod_cast h))
  unfold downloadHandler
  simp only [List.append_assoc, bytes_header_nonempty, replaceFirst_bytes, hsplit]
  simp [he, parseInt_decimal, createReadStream_invalid _ _ _ hbad]

theorem download_negative_start (filename : Str) (file : StoredFile) (rest : Str) :
    downloadHandler filename (some file) (some (str "bytes=" ++ 45 :: rest)) = .threw := by
  have hsplit : (45 :: rest).splitOn 45 = [] :: rest.splitOn 45 :=
    splitOn_dash_append [] rest (by simp)
  have hp : parseInt [] = none := rfl
  unfold downloadHandler
  simp only [bytes_header_nonempty, replaceFirst_bytes, hsplit]
  simp [hp, createReadStream_nan]

/-- C2, as the code behaves: the handler checks no range against the file size
and has no range-not-satisfiable answer. A range with start <= end whose end
lies at or beyond the file size, up to Number.MAX_SAFE_INTEGER, is answered
206 with Content-Range bytes start-end/S, Content-Length end-start+1 and the
bytes of the file from start to its end as body. A range with start > end, a
range whose end exceeds Number.MAX_SAFE_INTEGER, and a header whose start
carries a minus sign make the stream constructor throw, so the handler writes
no response and in particular no partial content. -/
theorem C2_range_out_of_bounds (filename : Str) (file : StoredFile) (start stop : Nat) :
    (start ≤ stop → file.bytes.length ≤ stop → stop ≤ maxSafeInteger →
      downloadHandler filename (some file)
          (some (str "bytes=" ++ decimal start ++ 45 :: decimal stop)) =
        .partialContent
          (str "bytes " ++ decimal start ++ str "-" ++ decimal stop ++ str "/" ++
            decimal file.bytes.length)
          ((stop : Int) - start + 1)
          (str "attachment; filename=" ++ 34 :: recoverOriginalName filename ++ [34])
          (file.bytes.drop start)) ∧
    (stop < start →
      downloadHandler filename (some file)
          (some (str "bytes=" ++ decimal start ++ 45 :: decimal stop)) = .threw) ∧
    (maxSafeInteger < stop →
      downloadHandler filename (some file)
          (some (str "bytes=" ++ decimal start ++ 45 :: decimal stop)) = .threw) ∧
    downloadHandler filename (some file)
        (some (str "bytes=" ++ 45 :: decimal start ++ 45 :: decimal stop)) = .threw := by
  refine ⟨fun h1 h2 h3 => ?_,
    fun h => download_refused_range filename file start stop (Or.inl h),
    fun h => download_refused_range filename file start stop (Or.inr h),
    download_negative_start filename file _⟩
  rw [download_closed_range filename file start stop h1 h3]
  congr 1
  apply List.take_of_length_le
  simp
  omega

/-- C2 fails as stated: on a file of 10 bytes the header bytes=0-20, whose end
is beyond the size, is answered with a 206 response carrying all 10 bytes. -/
theorem C2_counterexample :
    tenBytes.bytes.length = 10 ∧
    downloadHandler (str "1-a.txt") (some tenBytes) (some (str "bytes=0-20")) =
      .partialContent (str "bytes 0-20/10") 21
        (str "attachment; filename=" ++ 34 :: str "a.txt" ++ [34])
        [1, 2, 3, 4, 5, 6, 7, 8, 9, 10] := by
  decide

/-- Witness of C2: the file of 10 bytes asked for bytes 0-20, for bytes 5-2 and
for bytes 0-9007199254740992. -/
theorem C2_range_out_of_bounds_witness :
    ((0 : Nat) ≤ 20 ∧ tenBytes.bytes.length ≤ 20 ∧ 20 ≤ maxSafeInteger ∧
      downloadHandler (str "1-a.txt") (some tenBytes)
          (some (str "bytes=" ++ decimal 0 ++ 45 :: decimal 20)) =
        .partialContent
          (str "bytes " ++ decimal 0 ++ str "-" ++ decimal 20 ++ str "/" ++
            decimal tenBytes.bytes.length)
          (((20 : Nat) : Int) - ((0 : Nat) : Int) + 1)
          (str "attachment; filename=" ++ 34 :: recoverOriginalName (str "1-a.txt") ++ [34])
          (tenBytes.bytes.drop 0)) ∧
    ((2 : Nat) < 5 ∧
      downloadHandler (str "1-a.txt") (some tenBytes)
          (some (str "bytes=" ++ decimal 5 ++ 45 :: decimal 2)) = .threw) ∧
    (maxSafeInteger < 9007199254740992 ∧
      downloadHandler (str "1-a.txt") (some tenBytes)
          (some (str "bytes=" ++ decimal 0 ++ 45 :: decimal 9007199254740992)) = .threw) :=
  ⟨⟨by decide, by decide, by decide,
      (C2_range_out_of_bounds (str "1-a.txt") tenBytes 0 20).1 (by decide) (by decide)
        (by decide)⟩,
   ⟨by decide, (C2_range_out_of_bounds (str "1-a.txt") tenBytes 5 2).2.1 (by decide)⟩,
   ⟨by decide,
    (C2_range_out_of_bounds (str "1-a.txt") tenBytes 0 9007199254740992).2.2.1 (by decide)⟩⟩

/-- Witness of C1: bytes 2-4 of the file of 10 bytes. -/
theorem C1_range_served_witness :
    (2 : Nat) ≤ 4 ∧ 4 < tenBytes.bytes.length ∧
    downloadHandler (str "1-a.txt") (some tenBytes)
        (some (str "bytes=" ++ decimal 2 ++ 45 :: decimal 4)) =
      .partialContent
        (str "bytes " ++ decimal 2 ++ str "-" ++ decimal 4 ++ str "/" ++
          decimal tenBytes.bytes.length)
        (((4 : Nat) : Int) - (2 : Nat) + 1)
        (str "attachment; filename=" ++ 34 :: recoverOriginalName (str "1-a.txt") ++ [34])
        ((tenBytes.bytes.drop 2).take (4 - 2 + 1)) ∧
    (tenBytes.bytes.drop 2).take (4 - 2 + 1) = [3, 4, 5] :=
  ⟨by decide, by decide,
   (C1_range_served (str "1-a.txt") tenBytes 2 4 (by decide) (by decide)).1, by decide⟩

/-! ## The listing -/

theorem includes_iff (s t : Str) : includes s t = true ↔ t <:+: s := by
  induction s with
  | nil =>
    cases t <;> simp [includes]
  | cons c cs ih =>
    unfold includes
    rw [Bool.or_eq_true, ih, List.infix_cons_iff, List.isPrefixOf_iff_prefix]

theorem isListed_iff (name : Str) :
    isListed name = true ↔
      ¬ (str ".") <+: name ∧ name ≠ str "thumbnails" ∧ name ≠ str "temp" := by
  unfold isListed
  rw [Bool.and_eq_true, Bool.and_eq_true, Bool.not_eq_true', ← Bool.not_eq_true,
    List.isPrefixOf_iff_prefix, bne_iff_ne, bne_iff_ne, and_assoc]

theorem sortBy_perm (before : FileRecord → FileRecord → Bool) (l : List FileRecord) :
    (sortBy before l).Perm l :=
  List.perm_insertionSort _ l

theorem sortBy_sorted (key : FileRecord → Nat) (l : List FileRecord) :
    List.Sorted (fun a b => key b ≤ key a) (sortBy (fun a b => decide (key b ≤ key a)) l) := by
  haveI : IsTotal FileRecord (fun a b => decide (key b ≤ key a) = true) :=
    ⟨fun a b => by simp only [decide_eq_true_eq]; exact Nat.le_total _ _⟩
  haveI : IsTrans FileRecord (fun a b => decide (key b ≤ key a) = true) :=
    ⟨fun a b c hab hbc => by simp only [decide_eq_true_eq] at *; exact Nat.le_trans hbc hab⟩
  have h := List.sorted_insertionSort (fun a b => decide (key b ≤ key a) = true) l
  exact List.Pairwise.imp (fun hab => by simpa using hab) h

/-- The records of the listing before any search, category or sort step. -/
theorem listFiles_plain (lowerCase : Str → Str) (localeCompare : Str → Str → Int)
    (thumbs : Str → Bool) (files : List DirEntry) :
    listFiles lowerCase localeCompare thumbs files none none none =
      (files.filter (fun e => isListed e.name)).map (toRecord lowerCase thumbs) := rfl

theorem listFiles_unsorted_sublist (lowerCase : Str → Str) (localeCompare : Str → Str → Int)
    (thumbs : Str → Bool) (files : List DirEntry) (search category : Option Str) :
    (listFiles lowerCase localeCompare thumbs files search category none).Sublist
      ((files.filter (fun e => isListed e.name)).map (toRecord lowerCase thumbs)) := by
  unfold listFiles
  cases search <;> cases category <;> simp only <;> (try split_ifs) <;>
    first
      | exact List.Sublist.refl _
      | exact List.filter_sublist _
      | exact (List.filter_sublist _).trans (List.filter_sublist _)

/-- C7, as the code behaves: the date order (modification time descending) is
applied when a sort parameter is given that is neither empty, nor name, nor
size, and the listing is then a rearrangement of the unsorted one; without a
sort parameter (or with an empty one) no sort is made: the records come in the
order of the directory enumeration, filtered. -/
theorem C7_date_order (lowerCase : Str → Str) (localeCompare : Str → Str → Int)
    (thumbs : Str → Bool) (files : List DirEntry) (search category : Option Str) :
    (∀ s : Str, s ≠ [] → s ≠ str "name" → s ≠ str "size" →
      List.Sorted (fun a b => b.uploadTime ≤ a.uploadTime)
        (listFiles lowerCase localeCompare thumbs files search category (some s)) ∧
      List.Chain' (fun a b => b.uploadTime ≤ a.uploadTime)
        (listFiles lowerCase localeCompare thumbs files search category (some s)) ∧
      (listFiles lowerCase localeCompare thumbs files search category (some s)).Perm
        (listFiles lowerCase localeCompare thumbs files search category none)) ∧
    (listFiles lowerCase localeCompare thumbs files search category none).Sublist
      ((files.filter (fun e => isListed e.name)).map (toRecord lowerCase thumbs)) ∧
    listFiles lowerCase localeCompare thumbs files search category (some []) =
      listFiles lowerCase localeCompare thumbs files search category none ∧
    listFiles lowerCase localeCompare thumbs files none none none =
      (files.filter (fun e => isListed e.name)).map (toRecord lowerCase thumbs) := by
  refine ⟨fun s h1 h2 h3 => ?_, listFiles_unsorted_sublist _ _ _ _ _ _, rfl, rfl⟩
  have hs : s.isEmpty = false := by cases s <;> simp_all
  unfold listFiles
  simp only [hs, h2, h3, if_false, Bool.false_eq_true]
  exact ⟨sortBy_sorted (fun r => r.uploadTime) _,
    List.Pairwise.chain' (sortBy_sorted (fun r => r.uploadTime) _), sortBy_perm _ _⟩

/-- C7 fails as stated: with no sort parameter two entries enumerated with
modification times 10 then 20 are returned in that order, oldest first. -/
theorem C7_counterexample :
    (listFiles toLowerCase (fun _ _ => 0) (fun _ => false)
        [⟨str "1-b.txt", 5, 10⟩, ⟨str "2-a.txt", 7, 20⟩] none none none).map
      (fun r => r.uploadTime) = [10, 20] := by
  decide

/-- Witness of C7: two entries listed with sort=date. -/
theorem C7_date_order_witness :
    str "date" ≠ [] ∧ str "date" ≠ str "name" ∧ str "date" ≠ str "size" ∧
    List.Sorted (fun a b => b.uploadTime ≤ a.uploadTime)
      (listFiles toLowerCase (fun _ _ => 0) (fun _ => false)
        [⟨str "1-b.txt", 5, 10⟩, ⟨str "2-a.txt", 7, 20⟩] none none (some (str "date"))) :=
  ⟨by decide, by decide, by decide,
   ((C7_date_order toLowerCase (fun _ _ => 0) (fun _ => false)
      [⟨str "1-b.txt", 5, 10⟩, ⟨str "2-a.txt", 7, 20⟩] none none).1 (str "date")
      (by decide) (by decide) (by decide)).1⟩

theorem listFiles_search_size (lowerCase : Str → Str) (localeCompare : Str → Str → Int)
    (thumbs : Str → Bool) (files : List DirEntry) (s : Str) (hs : s ≠ []) :
    listFiles lowerCase localeCompare thumbs files (some s) none (some (str "size")) =
      sortBy (fun a b => decide (b.size ≤ a.size))
        (((files.filter (fun e => isListed e.name)).map (toRecord lowerCase thumbs)).filter
          (fun r => includes (lowerCase r.originalName) (lowerCase s))) := by
  have hse : s.isEmpty = false := by cases s <;> simp_all
  have hsize : (str "size").isEmpty = false := by decide
  have hne : str "size" ≠ str "name" := by decide
  unfold listFiles
  simp only [hse, hsize, hne, if_false, if_true, Bool.false_eq_true]

theorem record_eq_iff (lowerCase : Str → Str) (thumbs : Str → Bool) (e : DirEntry)
    (r : FileRecord) :
    r = toRecord lowerCase thumbs e ↔
      r.filename = e.name ∧
      r.originalName = (str "-").intercalate ((e.name.splitOn 45).drop 1) ∧
      r.size = e.size ∧ r.uploadTime = e.mtime ∧
      r.category = categorizeFile r.originalName ∧
      r.hasThumb = thumbs (str "thumb_" ++ e.name ++ str ".jpg") ∧
      r.extension = lowerCase (extname r.originalName) := by
  obtain ⟨f, o, sz, u, c, h, x⟩ := r
  simp only [toRecord, recoverOriginalName, FileRecord.mk.injEq]
  constructor
  · rintro ⟨rfl, rfl, rfl, rfl, rfl, rfl, rfl⟩
    exact ⟨rfl, rfl, rfl, rfl, rfl, rfl, rfl⟩
  · rintro ⟨rfl, rfl, rfl, rfl, h5, rfl, h7⟩
    exact ⟨rfl, rfl, rfl, rfl, h5, rfl, h7⟩

/-- C8: with a non-empty search string and sort=size the listing holds exactly
the records of the listed directory entries (not hidden, not thumbnails, not
temp) whose original name - the stored name split on dashes, first piece
dropped, re-joined - contains the search string once both are lower-cased,
each as often as the directory has it and with the fields the entry gives;
for a stored name built at upload that original name is the sanitised client
name; sizes never increase along the returned sequence. -/
theorem C8_search_sorted_by_size (lowerCase : Str → Str) (localeCompare : Str → Str → Int)
    (thumbs : Str → Bool) (files : List DirEntry) (s : Str) (hs : s ≠ []) :
    (listFiles lowerCase localeCompare thumbs files (some s) none (some (str "size"))).Perm
      ((files.filter (fun e => isListed e.name &&
          includes (lowerCase ((str "-").intercalate ((e.name.splitOn 45).drop 1)))
            (lowerCase s))).map (toRecord lowerCase thumbs)) ∧
    (∀ r, r ∈ listFiles lowerCase localeCompare thumbs files (some s) none (some (str "size")) ↔
      ∃ e ∈ files, (¬ (str ".") <+: e.name ∧ e.name ≠ str "thumbnails" ∧ e.name ≠ str "temp") ∧
        lowerCase s <:+: lowerCase ((str "-").intercalate ((e.name.splitOn 45).drop 1)) ∧
        r.filename = e.name ∧
        r.originalName = (str "-").intercalate ((e.name.splitOn 45).drop 1) ∧
        r.size = e.size ∧ r.uploadTime = e.mtime ∧
        r.category = categorizeFile r.originalName ∧
        r.hasThumb = thumbs (str "thumb_" ++ e.name ++ str ".jpg") ∧
        r.extension = lowerCase (extname r.originalName)) ∧
    (∀ (t : Nat) (n : Str) (size mtime : Nat),
      (toRecord lowerCase thumbs ⟨storageName t n, size, mtime⟩).originalName = sanitize n) ∧
    List.Sorted (fun a b => b.size ≤ a.size)
      (listFiles lowerCase localeCompare thumbs files (some s) none (some (str "size"))) ∧
    List.Chain' (fun a b => b.size ≤ a.size)
      (listFiles lowerCase localeCompare thumbs files (some s) none (some (str "size"))) := by
  rw [listFiles_search_size lowerCase localeCompare thumbs files s hs]
  have hsorted := sortBy_sorted (fun r => r.size)
    (((files.filter (fun e => isListed e.name)).map (toRecord lowerCase thumbs)).filter
      (fun r => includes (lowerCase r.originalName) (lowerCase s)))
  have hfilter :
      ((files.filter (fun e => isListed e.name)).map (toRecord lowerCase thumbs)).filter
          (fun r => includes (lowerCase r.originalName) (lowerCase s)) =
        (files.filter (fun e => isListed e.name &&
          includes (lowerCase ((str "-").intercalate ((e.name.splitOn 45).drop 1)))
            (lowerCase s))).map (toRecord lowerCase thumbs) := by
    rw [List.filter_map, List.filter_filter]
    congr 1
    apply List.filter_congr
    intro e _
    simp [toRecord, recoverOriginalName, Bool.and_comm]
  refine ⟨hfilter ▸ sortBy_perm _ _, fun r => ?_,
    fun t n size mtime => recover_storageName t n, hsorted, List.Pairwise.chain' hsorted⟩
  rw [(sortBy_perm _ _).mem_iff, hfilter, List.mem_map]
  constructor
  · rintro ⟨e, he, rfl⟩
    rw [List.mem_filter, Bool.and_eq_true, includes_iff, isListed_iff] at he
    exact ⟨e, he.1, he.2.1, he.2.2, (record_eq_iff lowerCase thumbs e _).mp rfl⟩
  · rintro ⟨e, he, hl, hinc, hrec⟩
    refine ⟨e, ?_, ((record_eq_iff lowerCase thumbs e r).mpr hrec).symm⟩
    rw [List.mem_filter, Bool.and_eq_true, includes_iff, isListed_iff]
    exact ⟨he, hl, hinc⟩

/-- Witness of C8: the three sample uploads, search string REP, sort by size;
the two reports come back, the larger first. -/
theorem C8_search_sorted_by_size_witness :
    str "REP" ≠ [] ∧
    List.Sorted (fun a b => b.size ≤ a.size)
      (listFiles toLowerCase (fun _ _ => 0) (fun _ => false) sampleDir
        (some (str "REP")) none (some (str "size"))) ∧
    (listFiles toLowerCase (fun _ _ => 0) (fun _ => false) sampleDir
        (some (str "REP")) none (some (str "size"))).map (fun r => (r.originalName, r.size)) =
      [(str "Report-2.pdf", 7), (str "report.txt", 5)] :=
  ⟨by decide,
   (C8_search_sorted_by_size toLowerCase (fun _ _ => 0) (fun _ => false) sampleDir
      (str "REP") (by decide)).2.2.2.1,
   by decide⟩

/-! ## The delete handlers -/

theorem str_jpg : str ".jpg" = [46, 106, 112, 103] := rfl

theorem thumbPath_no_trailing (dirname : List Str) (filename : Str) :
    (thumbPathOf dirname filename).trailingSlash = false := by
  have h1 : (str "uploads").isEmpty = false := by decide
  have h2 : (str "thumbnails").isEmpty = false := by decide
  have h3 : (str "thumb_" ++ (filename ++ [46, 106, 112, 103])).isEmpty = false := by
    cases h : str "thumb_" <;> simp
  have h4 : (str "thumb_" ++ (filename ++ [46, 106, 112, 103])).getLast? = some 103 := by
    rw [← List.append_assoc, show [46, 106, 112, 103] = [46, 106, 112] ++ [103] from rfl,
      ← List.append_assoc, List.getLast?_append]
    rfl
  unfold thumbPathOf pathJoin
  simp [List.filter, h1, h2, h3, h4, str_jpg]

/-- What one turn of the bulk delete loop reports and leaves behind, for paths
`F` (the file) and `T` (the thumbnail, never ending in a slash). -/
theorem step_outcome (dirname : List Str) (fs : FileSystem) (filename : Str) :
    (deleteBulkStep dirname fs filename).2.filename = filename ∧
    ((deleteBulkStep dirname fs filename).2.success = true ↔
      existsSync fs (filePathOf dirname filename) = true ∧
      (deleteBulkStep dirname fs filename).1 (filePathOf dirname filename).segments = none ∧
      (deleteBulkStep dirname fs filename).1 (thumbPathOf dirname filename).segments = none) ∧
    ((deleteBulkStep dirname fs filename).2.success = true →
      (deleteBulkStep dirname fs filename).2.error = none) ∧
    ((deleteBulkStep dirname fs filename).2.success = false →
      (deleteBulkStep dirname fs filename).2.error ≠ none) ∧
    (existsSync fs (filePathOf dirname filename) = false →
      (deleteBulkStep dirname fs filename).1 = fs ∧
      (deleteBulkStep dirname fs filename).2 = ⟨filename, false, some .fileNotFound⟩) := by
  have hT := thumbPath_no_trailing dirname filename
  unfold deleteBulkStep
  generalize thumbPathOf dirname filename = T at hT ⊢
  generalize filePathOf dirname filename = F
  simp only [existsSync, unlinkSync, hT]
  rcases hF : fs F.segments with _ | _ | _
  · simp
  · cases hFt : F.trailingSlash
    · by_cases hTF : T.segments = F.segments
      · simp [hTF]
      · rcases hTs : fs T.segments with _ | _ | _ <;> simp [hTF, hTs, hF]
    · simp
  · simp [hF]

theorem foldl_bulk (dirname : List Str) (files : List Str) (fs : FileSystem)
    (acc : List DeleteResult) :
    files.foldl
        (fun (a : FileSystem × List DeleteResult) filename =>
          ((deleteBulkStep dirname a.1 filename).1, a.2 ++ [(deleteBulkStep dirname a.1 filename).2]))
        (fs, acc) =
      ((bulkFrom dirname fs files).1, acc ++ (bulkFrom dirname fs files).2) := by
  induction files generalizing fs acc with
  | nil => simp [bulkFrom]
  | cons x xs ih => simp [List.foldl, bulkFrom, ih]

theorem deleteBulk_eq_bulkFrom (dirname : List Str) (fs : FileSystem) (files : List Str) :
    deleteBulk dirname fs files = bulkFrom dirname fs files := by
  unfold deleteBulk
  simpa using foldl_bulk dirname files fs []

theorem bulkFrom_length (dirname : List Str) (files : List Str) (fs : FileSystem) :
    (bulkFrom dirname fs files).2.length = files.length := by
  induction files generalizing fs with
  | nil => rfl
  | cons x xs ih => simp [bulkFrom, ih]

theorem bulkFrom_names (dirname : List Str) (files : List Str) (fs : FileSystem) :
    (bulkFrom dirname fs files).2.map (fun r => r.filename) = files := by
  induction files generalizing fs with
  | nil => rfl
  | cons x xs ih => simp [bulkFrom, ih, (step_outcome dirname fs x).1]

theorem bulkFrom_turn (dirname : List Str) (files : List Str) (fs : FileSystem) (i : Nat)
    (filename : Str) (h : files[i]? = some filename) :
    (bulkFrom dirname fs files).2[i]? =
        some (deleteBulkStep dirname (bulkFrom dirname fs (files.take i)).1 filename).2 ∧
    (bulkFrom dirname fs (files.take (i + 1))).1 =
        (deleteBulkStep dirname (bulkFrom dirname fs (files.take i)).1 filename).1 := by
  induction files generalizing fs i with
  | nil => simp at h
  | cons x xs ih =>
    cases i with
    | zero =>
      simp at h
      subst h
      simp [bulkFrom]
    | succ j =>
      simp at h
      have := ih (deleteBulkStep dirname fs x).1 j h
      simpa [bulkFrom] using this

theorem bulk_pair (dirname : List Str) (fs : FileSystem) (a b : Str)
    (ha : fs (filePathOf dirname a).segments = some .file)
    (hslash : (filePathOf dirname a).trailingSlash = false)
    (hthumb : fs (thumbPathOf dirname a).segments ≠ some .directory)
    (hb : existsSync fs (filePathOf dirname b) = false) :
    (deleteBulk dirname fs [a, b]).2 =
      [⟨a, true, none⟩, ⟨b, false, some .fileNotFound⟩] := by
  have hT := thumbPath_no_trailing dirname a
  rw [deleteBulk_eq_bulkFrom]
  simp only [bulkFrom]
  -- the turn of `a`
  have hstepa : (deleteBulkStep dirname fs a).2 = ⟨a, true, none⟩ ∧
      ∀ q, (deleteBulkStep dirname fs a).1 q = none ∨ (deleteBulkStep dirname fs a).1 q = fs q := by
    unfold deleteBulkStep
    generalize thumbPathOf dirname a = T at hT hthumb ⊢
    generalize filePathOf dirname a = F at ha hslash ⊢
    simp only [existsSync, unlinkSync, hT, ha, hslash]
    by_cases hTF : T.segments = F.segments
    · refine ⟨by simp [hTF], fun q => ?_⟩
      by_cases hq : q = F.segments <;> simp [hTF, hq]
    · rcases hTs : fs T.segments with _ | _ | _
      · refine ⟨by simp [hTF, hTs], fun q => ?_⟩
        by_cases hq : q = F.segments <;> simp [hTF, hTs, hq]
      · refine ⟨by simp [hTF, hTs], fun q => ?_⟩
        by_cases hq : q = F.segments <;> by_cases hq2 : q = T.segments <;>
          simp [hTF, hTs, hq, hq2]
      · exact absurd hTs hthumb
  have hb2 : existsSync (deleteBulkStep dirname fs a).1 (filePathOf dirname b) = false := by
    unfold existsSync at hb ⊢
    rcases hstepa.2 (filePathOf dirname b).segments with h | h
    · rw [h]
    · rw [h]; exact hb
  rw [hstepa.1, ((step_outcome dirname _ b).2.2.2.2 hb2).2]

/-- C6, as the code behaves: bulk delete returns one entry per name, in input
order, the i-th entry carrying the i-th name, whatever happened to earlier
names; the entry has success=true exactly when the file existed at its turn
and after its turn neither the file nor its thumbnail is left, and
success=false with an error otherwise (also when the file was removed and
removing its thumbnail threw); an absent file leaves the file system as it
was. For [A, B] with A a file, nothing but a file possibly standing at the
thumbnail path of A, and B absent, the result is A success=true, B success=false. -/
theorem C6_bulk_delete_results (dirname : List Str) (fs : FileSystem) (files : List Str) :
    (deleteBulk dirname fs files).2.length = files.length ∧
    (deleteBulk dirname fs files).2.map (fun r => r.filename) = files ∧
    (∀ (i : Nat) (filename : Str), files[i]? = some filename →
      ∃ r, (deleteBulk dirname fs files).2[i]? = some r ∧ r.filename = filename ∧
        (r.success = true ↔
          existsSync (deleteBulk dirname fs (files.take i)).1 (filePathOf dirname filename) = true ∧
          (deleteBulk dirname fs (files.take (i + 1))).1 (filePathOf dirname filename).segments
            = none ∧
          (deleteBulk dirname fs (files.take (i + 1))).1 (thumbPathOf dirname filename).segments
            = none) ∧
        (r.success = true → r.error = none) ∧
        (r.success = false → r.error ≠ none) ∧
        (existsSync (deleteBulk dirname fs (files.take i)).1 (filePathOf dirname filename) = false →
          (deleteBulk dirname fs (files.take (i + 1))).1 =
            (deleteBulk dirname fs (files.take i)).1 ∧
          r = ⟨filename, false, some .fileNotFound⟩)) ∧
    (∀ a b : Str, fs (filePathOf dirname a).segments = some .file →
      (filePathOf dirname a).trailingSlash = false →
      fs (thumbPathOf dirname a).segments ≠ some .directory →
      existsSync fs (filePathOf dirname b) = false →
      (deleteBulk dirname fs [a, b]).2 = [⟨a, true, none⟩, ⟨b, false, some .fileNotFound⟩]) := by
  refine ⟨?_, ?_, ?_, fun a b => bulk_pair dirname fs a b⟩
  · rw [deleteBulk_eq_bulkFrom]; exact bulkFrom_length _ _ _
  · rw [deleteBulk_eq_bulkFrom]; exact bulkFrom_names _ _ _
  · intro i filename h
    simp only [deleteBulk_eq_bulkFrom]
    obtain ⟨h1, h2⟩ := bulkFrom_turn dirname files fs i filename h
    have hs := step_outcome dirname (bulkFrom dirname fs (files.take i)).1 filename
    refine ⟨_, h1, hs.1, ?_, hs.2.2.1, hs.2.2.2.1, ?_⟩
    · rw [h2]; exact hs.2.1
    · rw [h2]; exact hs.2.2.2.2

/-- C6 fails as stated: with the upload A present, B absent and a directory
standing at the thumbnail path of A, bulk delete of [A, B] removes the file A
and yet reports success=false for it. -/
theorem C6_counterexample :
    blockedThumbFs (filePathOf appDir (str "A")).segments = some .file ∧
    existsSync blockedThumbFs (filePathOf appDir (str "A")) = true ∧
    existsSync blockedThumbFs (filePathOf appDir (str "B")) = false ∧
    (deleteBulk appDir blockedThumbFs [str "A", str "B"]).1
        (filePathOf appDir (str "A")).segments = none ∧
    (deleteBulk appDir blockedThumbFs [str "A", str "B"]).2 =
      [⟨str "A", false, some .caught⟩, ⟨str "B", false, some .fileNotFound⟩] := by
  decide

/-- Witness of C6: the pair A, B on the sample file system. -/
theorem C6_bulk_delete_results_witness :
    sampleFs (filePathOf appDir (str "A")).segments = some .file ∧
    (filePathOf appDir (str "A")).trailingSlash = false ∧
    sampleFs (thumbPathOf appDir (str "A")).segments ≠ some .directory ∧
    existsSync sampleFs (filePathOf appDir (str "B")) = false ∧
    (deleteBulk appDir sampleFs [str "A", str "B"]).2 =
      [⟨str "A", true, none⟩, ⟨str "B", false, some .fileNotFound⟩] :=
  ⟨by decide, by decide, by decide, by decide,
   (C6_bulk_delete_results appDir sampleFs [str "A", str "B"]).2.2.2 (str "A") (str "B")
     (by decide) (by decide) (by decide) (by decide)⟩

/-- C10, the code at the failing input: bulk delete of the single name
../server.js, and single delete of the same name, remove /srv/app/server.js,
a file outside the uploads directory, and report success. -/
theorem C10_traversal_removes_outside_file :
    sampleFs (appDir ++ [str "server.js"]) = some .file ∧
    (deleteBulk appDir sampleFs [str "../server.js"]).1 (appDir ++ [str "server.js"]) = none ∧
    (deleteBulk appDir sampleFs [str "../server.js"]).2 = [⟨str "../server.js", true, none⟩] ∧
    (deleteOne appDir sampleFs (str "../server.js")).1 (appDir ++ [str "server.js"]) = none ∧
    (deleteOne appDir sampleFs (str "../server.js")).2 = .deleted := by
  decide

/-! ## The scan of `path.extname` on names without separator -/

/-- Once the dot is found, the rest of the scan of a name without slash only
settles `preDotState`, by the first unit of the name. -/
theorem extnameLoop_after_dot (path : Str) (hslash : ∀ i, path.getD i 0 ≠ 47) (n : Nat)
    (st : ExtScan) (h1 : st.startDot ≠ -1) (h2 : st.endIdx ≠ -1) :
    extnameLoop path n st =
      { st with preDotState :=
          if n = 0 then st.preDotState else if path.getD 0 0 = 46 then 1 else -1 } := by
  induction n generalizing st with
  | zero => simp [extnameLoop]
  | succ i ih =>
    unfold extnameLoop
    simp only [hslash i, if_false, h2]
    by_cases hc : path.getD i 0 = 46
    · simp only [hc, if_true, h1, if_false]
      by_cases hp : st.preDotState = 1
      · simp only [hp, ne_eq, not_true_eq_false, if_false]
        rw [ih st h1 h2]
        cases i <;> simp [hc, hp, -List.getD_eq_getElem?_getD]
      · simp only [ne_eq, hp, not_false_eq_true, if_true]
        rw [ih { st with preDotState := 1 } h1 h2]
        cases i <;> simp [hc, -List.getD_eq_getElem?_getD]
    · simp only [hc, if_false, ne_eq, h1, not_false_eq_true, if_true]
      rw [ih { st with preDotState := -1 } h1 h2]
      cases i <;> simp [hc, -List.getD_eq_getElem?_getD]

theorem extnameLoop_succ (path : Str) (i : Nat) (st : ExtScan) :
    extnameLoop path (i + 1) st =
      if path.getD i 0 = 47 then
        if !st.matchedSlash then { st with startPart := (i : Int) + 1 }
        else extnameLoop path i st
      else
        extnameLoop path i
          (if path.getD i 0 = 46 then
            if (if st.endIdx = -1 then { st with matchedSlash := false, endIdx := (i : Int) + 1 }
                else st).startDot = -1 then
              { (if st.endIdx = -1 then { st with matchedSlash := false, endIdx := (i : Int) + 1 }
                  else st) with startDot := (i : Int) }
            else if (if st.endIdx = -1 then
                { st with matchedSlash := false, endIdx := (i : Int) + 1 } else st).preDotState ≠ 1 then
              { (if st.endIdx = -1 then { st with matchedSlash := false, endIdx := (i : Int) + 1 }
                  else st) with preDotState := 1 }
            else (if st.endIdx = -1 then { st with matchedSlash := false, endIdx := (i : Int) + 1 }
                  else st)
          else if (if st.endIdx = -1 then
              { st with matchedSlash := false, endIdx := (i : Int) + 1 } else st).startDot ≠ -1 then
            { (if st.endIdx = -1 then { st with matchedSlash := false, endIdx := (i : Int) + 1 }
                else st) with preDotState := -1 }
          else (if st.endIdx = -1 then { st with matchedSlash := false, endIdx := (i : Int) + 1 }
                else st)) := by
  rw [extnameLoop]

/-- Before any dot is found, units that are neither dot nor slash only fix the
end of the last component. -/
theorem extnameLoop_before_dot (path : Str) (k : Nat) (n : Nat) (hk : k ≤ n)
    (hfree : ∀ i, k ≤ i → i < n → path.getD i 0 ≠ 46 ∧ path.getD i 0 ≠ 47)
    (st : ExtScan) (h1 : st.startDot = -1) :
    extnameLoop path n st =
      extnameLoop path k
        (if k < n ∧ st.endIdx = -1 then { st with matchedSlash := false, endIdx := (n : Int) }
         else st) := by
  induction n generalizing st with
  | zero =>
    have : k = 0 := by omega
    subst this
    simp
  | succ i ih =>
    by_cases hki : k = i + 1
    · subst hki; simp
    · have hk2 : k ≤ i := by omega
      have hc := hfree i hk2 (by omega)
      have hlt : k < i + 1 := by omega
      obtain ⟨sd, sp, e, ms, pds⟩ := st
      simp only at h1
      subst h1
      rw [extnameLoop_succ]
      simp only [hc.1, hc.2, if_false]
      by_cases he : e = -1
      · subst he
        simp only [if_true, ne_eq, not_true_eq_false, if_false]
        rw [ih hk2 (fun j hj1 hj2 => hfree j hj1 (by omega)) _ rfl]
        have hne : ¬ ((i : Int) + 1 = -1) := by omega
        simp [hlt, hne]
      · simp only [he, if_false, ne_eq, not_true_eq_false]
        rw [ih hk2 (fun j hj1 hj2 => hfree j hj1 (by omega)) _ rfl]
        simp [he]

theorem getD_ne_of_not_mem (path : Str) (c : Nat) (hc : c ≠ 0) (h : c ∉ path) (i : Nat) :
    path.getD i 0 ≠ c := by
  intro heq
  by_cases hi : i < path.length
  · rw [List.getD_eq_getElem _ _ hi] at heq
    exact h (heq ▸ List.getElem_mem hi)
  · rw [List.getD_eq_default _ _ (by omega)] at heq
    exact hc heq.symm

theorem lastDot_spec (path : Str) :
    match lastDot path with
    | some k => k < path.length ∧ path.getD k 0 = 46 ∧ (∀ i, k < i → path.getD i 0 ≠ 46) ∧
        specExtension path = some (path.drop (k + 1))
    | none => (∀ i, path.getD i 0 ≠ 46) ∧ specExtension path = none := by
  induction path with
  | nil => simp [lastDot, specExtension]
  | cons c cs ih =>
    unfold lastDot specExtension
    cases h : lastDot cs with
    | some k =>
      rw [h] at ih
      obtain ⟨h1, h2, h3, h4⟩ := ih
      simp only [h4]
      refine ⟨by simp; omega, by simpa using h2, fun i hi => ?_, by simp⟩
      cases i with
      | zero => omega
      | succ j => simpa using h3 j (by omega)
    | none =>
      rw [h] at ih
      obtain ⟨h1, h2⟩ := ih
      simp only [h2]
      by_cases hc : c = 46
      · subst hc
        simp only [if_true]
        refine ⟨by simp, by simp, fun i hi => ?_, by simp⟩
        cases i with
        | zero => omega
        | succ j => simpa using h1 j
      · simp only [hc, if_false]
        refine ⟨fun i => ?_, trivial⟩
        cases i with
        | zero => simpa using hc
        | succ j => simpa using h1 j

theorem extname_no_dot (path : Str) (hslash : 47 ∉ path) (h : lastDot path = none) :
    extname path = [] := by
  have hs := lastDot_spec path
  rw [h] at hs
  have hfree : ∀ i, 0 ≤ i → i < path.length → path.getD i 0 ≠ 46 ∧ path.getD i 0 ≠ 47 :=
    fun i _ _ => ⟨hs.1 i, getD_ne_of_not_mem path 47 (by decide) hslash i⟩
  have hloop := extnameLoop_before_dot path 0 path.length (Nat.zero_le _) hfree ExtScan.init rfl
  unfold extname
  rw [hloop]
  simp only [extnameLoop]
  split_ifs <;> simp_all [ExtScan.init]

theorem extnameLoop_first_dot (path : Str) (k : Nat) (hdot : path.getD k 0 = 46)
    (sp e : Int) (ms : Bool) (pds : Int) :
    extnameLoop path (k + 1) ⟨-1, sp, e, ms, pds⟩ =
      extnameLoop path k
        ⟨(k : Int), sp, if e = -1 then (k : Int) + 1 else e, if e = -1 then false else ms, pds⟩ := by
  rw [extnameLoop_succ, hdot]
  by_cases he : e = -1
  · subst he
    simp
  · simp [he]

theorem extname_of_lastDot (path : Str) (hslash : 47 ∉ path) (k : Nat)
    (h : lastDot path = some k) :
    extname path =
      if k = 0 then []
      else if path.getD 0 0 = 46 ∧ path.length = 2 ∧ k = 1 then []
      else path.drop k := by
  have hs := lastDot_spec path
  rw [h] at hs
  obtain ⟨hk, hdot, hafter, _⟩ := hs
  have hsl : ∀ i, path.getD i 0 ≠ 47 := getD_ne_of_not_mem path 47 (by decide) hslash
  have hfree : ∀ i, k + 1 ≤ i → i < path.length → path.getD i 0 ≠ 46 ∧ path.getD i 0 ≠ 47 :=
    fun i hi _ => ⟨hafter i (by omega), hsl i⟩
  have hloop := extnameLoop_before_dot path (k + 1) path.length (by omega) hfree ExtScan.init rfl
  have hfinal : extnameLoop path path.length ExtScan.init =
      ⟨(k : Int), 0, (path.length : Int), false,
        if k = 0 then 0 else if path.getD 0 0 = 46 then 1 else -1⟩ := by
    rw [hloop]
    by_cases hlt : k + 1 < path.length
    · have hL : ¬ ((path.length : Int) = -1) := by omega
      rw [if_pos ⟨hlt, rfl⟩]
      show extnameLoop path (k + 1) ⟨-1, 0, (path.length : Int), false, 0⟩ = _
      rw [extnameLoop_first_dot path k hdot,
        extnameLoop_after_dot path hsl k _ (by show ¬ ((k : Int) = -1); omega)
          (by simp only [hL, if_false]; exact hL)]
      simp [hL]
    · have hkl : (k : Int) + 1 = path.length := by omega
      rw [if_neg (fun hh => hlt hh.1)]
      show extnameLoop path (k + 1) ⟨-1, 0, -1, true, 0⟩ = _
      rw [extnameLoop_first_dot path k hdot,
        extnameLoop_after_dot path hsl k _ (by show ¬ ((k : Int) = -1); omega)
          (by simp only [if_true]; omega)]
      simp [hkl]
  have h1 : ¬ ((k : Int) = -1) := by omega
  have h2 : ¬ ((path.length : Int) = -1) := by omega
  unfold extname
  rw [hfinal]
  simp only [slice, Int.toNat_ofNat, List.take_length, h1, h2, false_or]
  by_cases hk0 : k = 0
  · simp [hk0]
  · by_cases hc : path.getD 0 0 = 46
    · by_cases hcond : path.length = 2 ∧ k = 1
      · have : (k : Int) = (path.length : Int) - 1 ∧ (k : Int) = 0 + 1 := by omega
        simp [hk0, hc, hcond, this, -List.getD_eq_getElem?_getD]
      · have : ¬ ((k : Int) = (path.length : Int) - 1 ∧ (k : Int) = 0 + 1) := by omega
        simp only [hk0, hc, if_false, if_true, this, hcond, true_and, one_ne_zero, or_self]
    · simp [hk0, hc, -List.getD_eq_getElem?_getD]

/-! ## The extension tables -/

theorem contains_iff (l : List Str) (y : Str) : l.contains y = true ↔ y ∈ l := by
  simp

theorem categorizeLoop_other (y : Str) (tbl : List (Category × List Str))
    (h : ∀ row ∈ tbl, y ∉ row.2) : categorizeLoop y tbl = .other := by
  induction tbl with
  | nil => rfl
  | cons row rest ih =>
    obtain ⟨c, exts⟩ := row
    have h1 : y ∉ exts := h (c, exts) (by simp)
    have h2 : exts.contains y = false := by
      rw [← Bool.not_eq_true, contains_iff]; exact h1
    simp only [categorizeLoop, h2, Bool.false_eq_true, if_false]
    exact ih (fun r hr => h r (by simp [hr]))

set_option maxRecDepth 100000 in
theorem code_table_in_spec_table :
    ∀ row ∈ categories, ∀ y ∈ row.2, y.head? = some 46 ∧ y.tail ∈ specTable.flatMap (·.2) := by
  decide

set_option maxRecDepth 100000 in
theorem tables_agree_on_listed :
    ∀ x ∈ specTable.flatMap (·.2),
      categorizeLoop (46 :: x) categories =
        ((specTable.filter (fun row => row.2.contains x)).map Prod.fst).headD .other := by
  decide

theorem tables_agree (x : Str) :
    categorizeLoop (46 :: x) categories =
      ((specTable.filter (fun row => row.2.contains x)).map Prod.fst).headD .other := by
  by_cases hx : x ∈ specTable.flatMap (·.2)
  · exact tables_agree_on_listed x hx
  · have hl : categorizeLoop (46 :: x) categories = .other := by
      apply categorizeLoop_other
      intro row hrow hmem
      exact hx (code_table_in_spec_table row hrow _ hmem).2
    have hr : specTable.filter (fun row => row.2.contains x) = [] := by
      rw [List.filter_eq_nil_iff]
      intro row hrow hc
      rw [contains_iff] at hc
      exact hx (List.mem_flatMap.mpr ⟨row, hrow, hc⟩)
    rw [hl, hr]
    rfl

theorem toLowerCase_dot (x : Str) : toLowerCase (46 :: x) = 46 :: toLowerCase x := by
  simp [toLowerCase, lowerUnit]

theorem categorize_refines (name : Str) (hslash : 47 ∉ name) (hdot : lastDot name ≠ some 0) :
    categorizeFile name = specCategory name := by
  have hs := lastDot_spec name
  cases h : lastDot name with
  | none =>
    rw [h] at hs
    unfold categorizeFile specCategory
    rw [extname_no_dot name hslash h, hs.2]
    decide
  | some k =>
    rw [h] at hs
    obtain ⟨hk, hd, _, hext⟩ := hs
    have hk0 : k ≠ 0 := fun hk0 => hdot (by rw [h, hk0])
    unfold categorizeFile specCategory
    rw [extname_of_lastDot name hslash k h, hext]
    simp only [hk0, if_false]
    by_cases hcond : name.getD 0 0 = 46 ∧ name.length = 2 ∧ k = 1
    · have hnil : name.drop (k + 1) = [] := by
        apply List.drop_of_length_le
        omega
      rw [if_pos hcond, hnil]
      decide
    · rw [if_neg hcond]
      have hdrop : name.drop k = 46 :: name.drop (k + 1) := by
        rw [List.drop_eq_getElem_cons hk]
        congr 1
        rw [← hd, List.getD_eq_getElem _ _ hk]
      rw [hdrop, toLowerCase_dot, tables_agree]
      rfl

theorem spec_table_single_on_listed :
    ∀ x ∈ specTable.flatMap (·.2),
      ((specTable.filter (fun row => row.2.contains x)).map Prod.fst).length ≤ 1 := by
  decide

theorem spec_table_single (x : Str) :
    ((specTable.filter (fun row => row.2.contains x)).map Prod.fst).length ≤ 1 := by
  by_cases hx : x ∈ specTable.flatMap (·.2)
  · exact spec_table_single_on_listed x hx
  · have hr : specTable.filter (fun row => row.2.contains x) = [] := by
      rw [List.filter_eq_nil_iff]
      intro row hrow hc
      rw [contains_iff] at hc
      exact hx (List.mem_flatMap.mpr ⟨row, hrow, hc⟩)
    rw [hr]
    simp

theorem categorize_dotfile (name : Str) (hslash : 47 ∉ name) (h : lastDot name = some 0) :
    categorizeFile name = .other := by
  unfold categorizeFile
  rw [extname_of_lastDot name hslash 0 h, if_pos rfl]
  decide

/-- C5, as the code behaves: categorizeFile is a total function; on a name
without path separator whose last dot is not its first character it returns
the category that lists the lower-cased text after the last dot, and other
when no list has it or the name has no dot; a name whose only dot-led
extension starts the name (such as .jpg) is given other; no extension is
listed under two categories. -/
theorem C5_categorize (name : Str) :
    (47 ∉ name → lastDot name ≠ some 0 → categorizeFile name = specCategory name) ∧
    (47 ∉ name → lastDot name = some 0 → categorizeFile name = .other) ∧
    (∀ ext : Str, (specCategoriesOf ext).length ≤ 1) ∧
    List.Pairwise (fun r1 r2 : Category × List Str => ∀ e ∈ r1.2, e ∉ r2.2) categories :=
  ⟨categorize_refines name, categorize_dotfile name,
   fun ext => spec_table_single (toLowerCase ext), by decide⟩

/-- C5 fails as stated: the text from the last dot of the name .jpg is the
listed extension .jpg, for which the specification gives images, and
categorizeFile returns other. -/
theorem C5_counterexample :
    specExtension (str ".jpg") = some (str "jpg") ∧
    specCategory (str ".jpg") = .images ∧
    categorizeFile (str ".jpg") = .other := by
  decide

/-- Witness of C5 on the name Photo.JPG. -/
theorem C5_categorize_witness :
    47 ∉ str "Photo.JPG" ∧ lastDot (str "Photo.JPG") ≠ some 0 ∧
    categorizeFile (str "Photo.JPG") = specCategory (str "Photo.JPG") ∧
    specCategory (str "Photo.JPG") = .images :=
  ⟨by decide, by decide, (C5_categorize (str "Photo.JPG")).1 (by decide) (by decide), by decide⟩

/-! ## Sanitising and the category -/

theorem sanitizeUnit_eq_dot (c : Nat) : sanitizeUnit c = 46 ↔ c = 46 := by
  unfold sanitizeUnit
  by_cases h : isSafeUnit c = true
  · simp [h]
  · have hc : c ≠ 46 := fun h' => h (by subst h'; decide)
    simp [h, hc]

theorem sanitizeUnit_ne_slash (c : Nat) : sanitizeUnit c ≠ 47 := by
  unfold sanitizeUnit
  by_cases h : isSafeUnit c = true
  · simp only [h, if_true]
    intro hc; subst hc; exact absurd h (by decide)
  · simp [h]

theorem sanitize_no_slash (path : Str) : 47 ∉ sanitize path := by
  intro h
  simp only [sanitize, List.mem_map] at h
  obtain ⟨c, _, hc⟩ := h
  exact sanitizeUnit_ne_slash c hc

theorem lastDot_sanitize (path : Str) : lastDot (sanitize path) = lastDot path := by
  induction path with
  | nil => rfl
  | cons c cs ih =>
    have ih2 : lastDot (List.map sanitizeUnit cs) = lastDot cs := ih
    simp only [sanitize, List.map_cons, lastDot, ih2]
    cases lastDot cs with
    | some k => rfl
    | none =>
      by_cases hc : c = 46
      · simp [hc, (sanitizeUnit_eq_dot 46).mpr rfl]
      · have : ¬ sanitizeUnit c = 46 := fun h => hc ((sanitizeUnit_eq_dot c).mp h)
        simp [hc, this]

theorem extname_sanitize (path : Str) (hslash : 47 ∉ path) :
    extname (sanitize path) = sanitize (extname path) := by
  have hfirst : ((sanitize path).getD 0 0 = 46) ↔ (path.getD 0 0 = 46) := by
    cases path with
    | nil => simp [sanitize]
    | cons c cs => simpa [sanitize] using sanitizeUnit_eq_dot c
  cases h : lastDot path with
  | none =>
    rw [extname_no_dot path hslash h,
      extname_no_dot _ (sanitize_no_slash path) (by rw [lastDot_sanitize, h])]
    rfl
  | some k =>
    rw [extname_of_lastDot path hslash k h,
      extname_of_lastDot _ (sanitize_no_slash path) k (by rw [lastDot_sanitize, h])]
    have hlen : (sanitize path).length = path.length := by simp [sanitize]
    simp only [hfirst, hlen]
    split_ifs
    · rfl
    · rfl
    · simp [sanitize, List.map_drop]

theorem categorizeLoop_of_bad_unit (y : Str) (h : ∃ u ∈ y, isTableUnit u = false) :
    categorizeLoop y categories = .other := by
  apply categorizeLoop_other
  intro row hrow hy
  have hall : ∀ row ∈ categories, ∀ y ∈ row.2, ∀ u ∈ y, isTableUnit u = true := by decide
  obtain ⟨u, hu, hbad⟩ := h
  rw [hall row hrow y hy u hu] at hbad
  exact absurd hbad (by decide)

theorem lowerUnit_unsafe (c : Nat) (h : isSafeUnit c = false) (hk : c ≠ 0x212A) :
    ∃ u ∈ lowerUnit c, isTableUnit u = false := by
  simp only [isSafeUnit, Bool.or_eq_false_iff, Bool.and_eq_false_iff, decide_eq_false_iff_not,
    beq_eq_false_iff_ne] at h
  unfold lowerUnit
  split_ifs with h1 h2 h3
  · omega
  · exact ⟨0x307, by simp, by decide⟩
  · refine ⟨c + 32, by simp, ?_⟩
    simp [isTableUnit]; omega
  · refine ⟨c, by simp, ?_⟩
    simp [isTableUnit]; omega

theorem category_sanitized_other (e : Str) (c : Nat) (hc : c ∈ e)
    (hbad : isSafeUnit c = false) :
    categorizeLoop (toLowerCase (sanitize e)) categories = .other :=
  categorizeLoop_of_bad_unit (toLowerCase (sanitize e))
    ⟨95, List.mem_flatMap.mpr ⟨95, by
      simp only [sanitize, List.mem_map]
      exact ⟨c, hc, by simp [sanitizeUnit, hbad]⟩, by simp [lowerUnit]⟩, by decide⟩

theorem category_sanitize_ext (e : Str) (hk : 0x212A ∉ e) :
    categorizeLoop (toLowerCase (sanitize e)) categories =
      categorizeLoop (toLowerCase e) categories := by
  by_cases hall : ∀ c ∈ e, isSafeUnit c = true
  · have : sanitize e = e := by
      unfold sanitize
      conv_rhs => rw [← List.map_id e]
      apply List.map_congr_left
      intro c hc
      simp [sanitizeUnit, hall c hc]
    rw [this]
  · push_neg at hall
    obtain ⟨c, hc, hbad⟩ := hall
    have hbad2 : isSafeUnit c = false := by simpa using hbad
    have hck : c ≠ 0x212A := fun h => hk (h ▸ hc)
    obtain ⟨u, hu, hub⟩ := lowerUnit_unsafe c hbad2 hck
    rw [categorizeLoop_of_bad_unit (toLowerCase e)
        ⟨u, List.mem_flatMap.mpr ⟨c, hc, hu⟩, hub⟩,
      category_sanitized_other e c hc hbad2]

theorem only_mkv_has_k :
    ∀ row ∈ categories, ∀ y ∈ row.2, 107 ∈ y → y = str ".mkv" := by
  decide

theorem category_kelvin_ext (e : Str) (hk : 0x212A ∈ e) (hne : toLowerCase e ≠ str ".mkv") :
    categorizeLoop (toLowerCase e) categories = .other := by
  apply categorizeLoop_other
  intro row hrow hy
  have h107 : 107 ∈ toLowerCase e :=
    List.mem_flatMap.mpr ⟨0x212A, hk, by simp [lowerUnit]⟩
  exact hne (only_mkv_has_k row hrow _ hy h107)

/-- C9, as the code behaves: for a client name without path separator the
category computed from the name at upload equals the category computed from
its sanitised form, which is the original name the listing recovers from the
storage name, except in exactly one case: when the extension of the name holds
the KELVIN SIGN (U+212A) and lower-cases to .mkv, the upload response says
videos and the listing says other. -/
theorem C9_category_stable (t : Nat) (n : Str) (hslash : 47 ∉ n) :
    (¬ (0x212A ∈ extname n ∧ toLowerCase (extname n) = str ".mkv") →
      categorizeFile (sanitize n) = categorizeFile n ∧
      categorizeFile (recoverOriginalName (storageName t n)) = categorizeFile n) ∧
    (0x212A ∈ extname n → toLowerCase (extname n) = str ".mkv" →
      categorizeFile n = .videos ∧
      categorizeFile (sanitize n) = .other ∧
      categorizeFile (recoverOriginalName (storageName t n)) = .other) := by
  have hkbad : isSafeUnit 0x212A = false := by decide
  constructor
  · intro hcase
    have h1 : categorizeFile (sanitize n) = categorizeFile n := by
      unfold categorizeFile
      rw [extname_sanitize n hslash]
      by_cases hk : 0x212A ∈ extname n
      · have hne : toLowerCase (extname n) ≠ str ".mkv" := fun h => hcase ⟨hk, h⟩
        rw [category_sanitized_other _ _ hk hkbad, category_kelvin_ext _ hk hne]
      · exact category_sanitize_ext _ hk
    exact ⟨h1, by rw [recover_storageName]; exact h1⟩
  · intro hk hmkv
    have h1 : categorizeFile n = .videos := by
      unfold categorizeFile
      rw [hmkv]
      decide
    have h2 : categorizeFile (sanitize n) = .other := by
      unfold categorizeFile
      rw [extname_sanitize n hslash]
      exact category_sanitized_other _ _ hk hkbad
    exact ⟨h1, h2, by rw [recover_storageName]; exact h2⟩

/-- C9 fails as stated: the name m.m?v whose fourth unit is the KELVIN SIGN has
the extension .mkv once lower-cased, so the upload response says videos;
sanitising turns the sign into an underscore and the listing says other. -/
theorem C9_counterexample :
    categorizeFile [109, 46, 109, 0x212A, 118] = .videos ∧
    categorizeFile (sanitize [109, 46, 109, 0x212A, 118]) = .other ∧
    categorizeFile (recoverOriginalName (storageName 1700000000000 [109, 46, 109, 0x212A, 118]))
      = .other := by
  decide

/-- A path separator in the name changes the category as well: x/.jpg has no
extension for `path.extname`, its sanitised form x_.jpg has. -/
theorem separator_changes_category :
    categorizeFile (str "x/.jpg") = .other ∧ categorizeFile (sanitize (str "x/.jpg")) = .images := by
  decide

/-- Witness of C9: a name that starts with the KELVIN SIGN and ends in .jpg is
images on both paths; a name whose extension is .mkv written with the sign is
videos at upload and other in the listing. -/
theorem C9_category_stable_witness :
    (47 ∉ (0x212A :: str ".jpg") ∧
      ¬ (0x212A ∈ extname (0x212A :: str ".jpg") ∧
        toLowerCase (extname (0x212A :: str ".jpg")) = str ".mkv") ∧
      categorizeFile (sanitize (0x212A :: str ".jpg")) = categorizeFile (0x212A :: str ".jpg") ∧
      categorizeFile (recoverOriginalName (storageName 1700000000000 (0x212A :: str ".jpg"))) =
        categorizeFile (0x212A :: str ".jpg") ∧
      categorizeFile (0x212A :: str ".jpg") = .images) ∧
    (47 ∉ [109, 46, 109, 0x212A, 118] ∧ 0x212A ∈ extname [109, 46, 109, 0x212A, 118] ∧
      toLowerCase (extname [109, 46, 109, 0x212A, 118]) = str ".mkv" ∧
      categorizeFile [109, 46, 109, 0x212A, 118] = .videos ∧
      categorizeFile (sanitize [109, 46, 109, 0x212A, 118]) = .other) :=
  ⟨⟨by decide, by decide,
      ((C9_category_stable 1700000000000 (0x212A :: str ".jpg") (by decide)).1 (by decide)).1,
      ((C9_category_stable 1700000000000 (0x212A :: str ".jpg") (by decide)).1 (by decide)).2,
      by decide⟩,
   ⟨by decide, by decide, by decide,
      ((C9_category_stable 1700000000000 [109, 46, 109, 0x212A, 118] (by decide)).2
        (by decide) (by decide)).1,
      ((C9_category_stable 1700000000000 [109, 46, 109, 0x212A, 118] (by decide)).2
        (by decide) (by decide)).2.1⟩⟩

end HomeFileServer
